import Mathlib

/-!
Verification of the batch generation pipeline in `src/app/batch/page.tsx`
(Content-Generator-Tool). The pure control flow of `processItem`,
`handleGenerate` and `handleDownloadZip` is embedded shallowly; the HTTP
adapters (fetch of /api/research and /api/generate) are modelled as an
adversarial oracle supplying their outcomes, and JSZip entry insertion is
modelled as a name-keyed list (re-inserting an existing name replaces the
content in place, as JS object key assignment does). Base64 decoding of
document contents is a fixed injective transformation and is elided: an
archive entry carries the still-encoded content string.
-/

/-- One row of batch input, from the BatchItem interface in
src/app/batch/page.tsx. -/
structure BatchItem where
  row : Nat
  url : String
  topic : String
  primaryKeyword : String
  secondaryKeywords : List String
deriving DecidableEq, Repr

/-- Status values of the BatchResult interface:
success | error | pending | processing. -/
inductive Status where
  | success
  | error
  | pending
  | processing
deriving DecidableEq, Repr

/-- The BatchResult interface from src/app/batch/page.tsx. Absent optional
JS fields are `none`. -/
structure BatchResult where
  row : Nat
  topic : String
  status : Status
  error : Option String := none
  documentBase64 : Option String := none
  documentFilename : Option String := none
deriving DecidableEq, Repr

/-- JS truthiness of an optional string field: undefined and the empty
string are falsy. -/
def strTruthy : Option String → Bool
  | none => false
  | some s => s != ""

/-- JS `s || fallback` for strings: the fallback is taken when s is empty. -/
def jsOr (s fallback : String) : String :=
  if s = "" then fallback else s

/-- JS `o || fallback` for an optional string: undefined and empty are
replaced by the fallback. -/
def jsOrOpt : Option String → String → String
  | none, fb => fb
  | some s, fb => jsOr s fb

/-- Outcome of the research call in processItem. The fetch (or the
subsequent response.json()) may throw, may return a non-ok response
(researchData stays null), or may return ok with a JSON body. -/
inductive ResearchOutcome where
  | throws (msg : String)
  | notOk
  | ok (data : String)
deriving DecidableEq, Repr

/-- Outcome of the generate call in processItem, as a function of the
research_data sent in the request body. The fetch or a json() parse may
throw; a non-ok response carries an optional error field in its body; an
ok response body carries optional document_base64 / document_filename. -/
inductive GenOutcome where
  | throws (msg : String)
  | notOkWith (errField : Option String)
  | okBody (documentBase64 : Option String) (documentFilename : Option String)
deriving DecidableEq, Repr

/-- Adversarial environment for one item: the behaviour of the two
endpoints processItem fetches. -/
structure ItemOracle where
  research : ResearchOutcome
  gen : Option String → GenOutcome

/-- Tail of processItem after the research call resolved without throwing:
the generate fetch and the surrounding try/catch. A thrown error is caught
and becomes err.message with the fallback text Unknown error; a non-ok
response first raises an Error whose message is the error field of the
body with the fallback text Generation failed, which the same catch then
reads back. The second component lists the endpoints fetched. -/
def finishGenerate (item : BatchItem) (g : GenOutcome) : BatchResult × List String :=
  match g with
  | GenOutcome.throws msg =>
      ({ row := item.row, topic := item.topic, status := Status.error,
         error := some (jsOr msg "Unknown error") },
       ["/api/research", "/api/generate"])
  | GenOutcome.notOkWith errField =>
      ({ row := item.row, topic := item.topic, status := Status.error,
         error := some (jsOr (jsOrOpt errField "Generation failed") "Unknown error") },
       ["/api/research", "/api/generate"])
  | GenOutcome.okBody b64 fname =>
      ({ row := item.row, topic := item.topic, status := Status.success,
         documentBase64 := b64, documentFilename := fname },
       ["/api/research", "/api/generate"])

/-- processItem from src/app/batch/page.tsx. The research fetch comes
first; if it throws, the catch turns the exception into an error result
and the generate endpoint is never fetched. Otherwise researchData is the
ok body (or null on a non-ok response) and is forwarded to the generate
call. -/
def processItem (o : ItemOracle) (item : BatchItem) : BatchResult × List String :=
  match o.research with
  | ResearchOutcome.throws msg =>
      ({ row := item.row, topic := item.topic, status := Status.error,
         error := some (jsOr msg "Unknown error") },
       ["/api/research"])
  | ResearchOutcome.notOk => finishGenerate item (o.gen none)
  | ResearchOutcome.ok d => finishGenerate item (o.gen (some d))

/-- The research_data value processItem sends to the generate endpoint. -/
def sentResearchData (o : ItemOracle) : Option String :=
  match o.research with
  | ResearchOutcome.ok d => some d
  | _ => none

/-- The generate response processItem receives (when research did not
throw). -/
def genOutcomeOf (o : ItemOracle) : GenOutcome :=
  o.gen (sentResearchData o)

/-- Whether the research fetch throws. -/
def researchThrows (o : ItemOracle) : Bool :=
  match o.research with
  | ResearchOutcome.throws _ => true
  | _ => false

/-- Whether the generate call fails (throws or returns non-ok). -/
def genCallFails (o : ItemOracle) : Bool :=
  match genOutcomeOf o with
  | GenOutcome.okBody _ _ => false
  | _ => true

/-- The message carried by the error BatchResult when the generate call
fails. -/
def genFailMsg (o : ItemOracle) : String :=
  match genOutcomeOf o with
  | GenOutcome.throws m => jsOr m "Unknown error"
  | GenOutcome.notOkWith e => jsOr (jsOrOpt e "Generation failed") "Unknown error"
  | GenOutcome.okBody _ _ => ""

/-- The terminal result processItem yields for an item. -/
def itemResult (o : BatchItem → ItemOracle) (item : BatchItem) : BatchResult :=
  (processItem (o item) item).1

/-- One ZIP archive entry: filename and (still base64-encoded) content. -/
structure ZipEntry where
  name : String
  contentBase64 : String
deriving DecidableEq, Repr

/-- JSZip zip.file(name, content): entries live in a JS object keyed by
name, so inserting an existing name replaces its content in place and a
new name is appended. -/
def zipFile (acc : List ZipEntry) (n content : String) : List ZipEntry :=
  if acc.any (fun e => e.name = n) then
    acc.map (fun e => if e.name = n then { e with contentBase64 := content } else e)
  else
    acc ++ [{ name := n, contentBase64 := content }]

/-- The filter handleDownloadZip applies first: status strictly equal to
success, and documentBase64 truthy. -/
def successFilter (r : BatchResult) : Bool :=
  (r.status == Status.success) && strTruthy r.documentBase64

/-- The body of the for-loop in handleDownloadZip: an entry is added only
if documentBase64 and documentFilename are both truthy. -/
def zipStep (acc : List ZipEntry) (r : BatchResult) : List ZipEntry :=
  if strTruthy r.documentBase64 && strTruthy r.documentFilename then
    zipFile acc (r.documentFilename.getD "") (r.documentBase64.getD "")
  else
    acc

/-- The entry list handleDownloadZip builds for a results list. -/
def zipEntriesOf (results : List BatchResult) : List ZipEntry :=
  (results.filter successFilter).foldl zipStep []

/-- handleDownloadZip from src/app/batch/page.tsx: returns early with no
archive when the filtered success list is empty, otherwise downloads the
built entries as content_briefs.zip. -/
def handleDownloadZip (results : List BatchResult) : Option (List ZipEntry × String) :=
  if (results.filter successFilter).length = 0 then none
  else some (zipEntriesOf results, "content_briefs.zip")

/-- Whether a result is one the assembler materialises under the given
filename: status success with both document fields truthy and that
filename. Stated from the amended claim wording, for comparison with the
entries the code builds. -/
def qualifiesFor (r : BatchResult) (n : String) : Bool :=
  (r.status == Status.success) && strTruthy r.documentBase64 && strTruthy r.documentFilename
    && (r.documentFilename.getD "" == n)

/-- Modelled from the amended claim wording: the documentBase64 content of
the last result in the list that has status success, both document fields
truthy, and the given filename. Used to state that on a filename
collision the later content replaces the earlier. -/
def lastQualifyingContent (rs : List BatchResult) (n : String) : Option String :=
  rs.foldl (fun acc r =>
    if qualifiesFor r n then some (r.documentBase64.getD "") else acc) none

/-- The mutable state handleGenerate drives: the React results state, the
local finalResults accumulator, and the page-level error state (which
handleGenerate only ever resets to null). -/
structure RunState where
  results : List BatchResult
  finalResults : List BatchResult
  batchError : Option String
deriving DecidableEq, Repr

/-- Observable events of a run: an item entering processing, an item
reaching its terminal result, and the run completing with the final
results list. -/
inductive BatchEvent where
  | progress (idx : Nat) (row : Nat)
  | result (idx : Nat) (res : BatchResult)
  | complete (results : List BatchResult)
deriving DecidableEq, Repr

/-- The full observable output of a run: the event trace, the value of the
state after each setResults call, and the final state. -/
structure RunOutput where
  events : List BatchEvent
  states : List RunState
  final : RunState
deriving DecidableEq, Repr

/-- The update `prev.map((r, idx) => idx === i ? f(r) : r)` used by both
setResults calls inside the loop. -/
def mapAt (f : BatchResult → BatchResult) : List BatchResult → Nat → List BatchResult
  | [], _ => []
  | r :: rs, 0 => f r :: rs
  | r :: rs, n + 1 => r :: mapAt f rs n

/-- The initial placeholder handleGenerate creates for every item. -/
def pendingResult (item : BatchItem) : BatchResult :=
  { row := item.row, topic := item.topic, status := Status.pending }

/-- The for-loop of handleGenerate: item i is first marked processing,
then processed, then its slot is replaced by the terminal result and the
result is pushed onto finalResults, before the loop advances. -/
def runItems (o : BatchItem → ItemOracle) : List BatchItem → Nat → RunState → RunOutput
  | [], _, st => { events := [], states := [], final := st }
  | item :: rest, i, st =>
      let st1 : RunState :=
        { st with results := mapAt (fun r => { r with status := Status.processing }) st.results i }
      let res := (processItem (o item) item).1
      let st2 : RunState :=
        { st1 with results := mapAt (fun _ => res) st1.results i,
                   finalResults := st1.finalResults ++ [res] }
      let out := runItems o rest (i + 1) st2
      { events := BatchEvent.progress i item.row :: BatchEvent.result i res :: out.events,
        states := st1 :: st2 :: out.states,
        final := out.final }

/-- handleGenerate from src/app/batch/page.tsx. An empty items list
returns before touching any state; otherwise results is initialised to
all-pending placeholders, the error state is reset to null, the loop runs,
and completion publishes the final results state. -/
def handleGenerate (o : BatchItem → ItemOracle) (items : List BatchItem)
    (prevResults : List BatchResult) (prevError : Option String) : RunOutput :=
  if items.length = 0 then
    { events := [], states := [],
      final := { results := prevResults, finalResults := [], batchError := prevError } }
  else
    let out := runItems o items 0
      { results := items.map pendingResult, finalResults := [], batchError := none }
    { out with events := out.events ++ [BatchEvent.complete out.final.results] }

/-- Concrete batch item used by the concrete theorems below. -/
def itEx : BatchItem :=
  { row := 1, url := "https://example.com", topic := "Neck Pain",
    primaryKeyword := "kw", secondaryKeywords := [] }

/-- Second concrete batch item. -/
def itEx2 : BatchItem :=
  { row := 2, url := "https://example.com/b", topic := "Back Pain",
    primaryKeyword := "kw2", secondaryKeywords := ["k3"] }

/-- Oracle where the research fetch throws but generation would succeed. -/
def oResearchThrows : ItemOracle :=
  { research := ResearchOutcome.throws "network error",
    gen := fun _ => GenOutcome.okBody (some "QQ==") (some "f.docx") }

/-- Oracle where research and generation both succeed. -/
def oAllOk : ItemOracle :=
  { research := ResearchOutcome.ok "summary",
    gen := fun _ => GenOutcome.okBody (some "QQ==") (some "f.docx") }

/-- Oracle where research returns a non-ok response and generation
succeeds. -/
def oResearchNotOk : ItemOracle :=
  { research := ResearchOutcome.notOk,
    gen := fun _ => GenOutcome.okBody (some "QQ==") (some "f.docx") }

/-- Oracle where research is fine but the generate call returns a non-ok
response whose body carries an error message. -/
def oGenFails : ItemOracle :=
  { research := ResearchOutcome.notOk,
    gen := fun _ => GenOutcome.notOkWith (some "boom") }

/-- A result that reports success but carries no document fields. -/
def rNoDoc : BatchResult :=
  { row := 1, topic := "t", status := Status.success }

/-- First member of a filename collision pair. -/
def rColl1 : BatchResult :=
  { row := 1, topic := "a", status := Status.success,
    documentBase64 := some "QQ==", documentFilename := some "brief.docx" }

/-- Second member of a filename collision pair: same filename, different
content, later row. -/
def rColl2 : BatchResult :=
  { row := 2, topic := "b", status := Status.success,
    documentBase64 := some "Qg==", documentFilename := some "brief.docx" }

/-- Fully qualified successful result used as a witness input. -/
def rOk : BatchResult :=
  { row := 3, topic := "c", status := Status.success,
    documentBase64 := some "Qw==", documentFilename := some "ok.docx" }

/-- Whether a result status is terminal: success and error are the two
terminal states of an item. -/
def isTerminal : Status → Bool
  | Status.success => true
  | Status.error => true
  | Status.pending => false
  | Status.processing => false

/-- Number of entries of a results list that are in a terminal state. -/
def countTerminal (rs : List BatchResult) : Nat :=
  rs.countP (fun r => isTerminal r.status)

/-- The state right after the single item of a one-item batch is marked
processing, used as a concrete witness state. -/
def stEx : RunState :=
  { results := [{ row := 1, topic := "Neck Pain", status := Status.processing }],
    finalResults := [], batchError := none }

/-- The two setResults updates in the loop body act on the slot of the
item being processed: this is the index boundary they hit. -/
theorem mapAt_append_cons (f : BatchResult → BatchResult) (done : List BatchResult)
    (r : BatchResult) (rs : List BatchResult) :
    mapAt f (done ++ r :: rs) done.length = done ++ f r :: rs := by
  induction done with
  | nil => rfl
  | cons d ds ih => simpa [mapAt] using ih

/-- Final state of the loop started at the boundary between an
already-processed prefix and all-pending remaining items: every remaining
item ends up replaced by its terminal result, in order, and the same
results are appended to finalResults. -/
theorem runItems_final (o : BatchItem → ItemOracle) :
    ∀ (rest : List BatchItem) (done fin : List BatchResult) (be : Option String),
    (runItems o rest done.length
       { results := done ++ rest.map pendingResult, finalResults := fin, batchError := be }).final =
    { results := done ++ rest.map (itemResult o),
      finalResults := fin ++ rest.map (itemResult o), batchError := be } := by
  intro rest
  induction rest with
  | nil => intro done fin be; simp [runItems]
  | cons item rest ih =>
    intro done fin be
    simp only [runItems, List.map_cons, mapAt_append_cons]
    rw [show (processItem (o item) item).1 = itemResult o item from rfl]
    rw [show done ++ itemResult o item :: rest.map pendingResult
          = (done ++ [itemResult o item]) ++ rest.map pendingResult by simp,
        show done.length + 1 = (done ++ [itemResult o item]).length by simp]
    rw [ih (done ++ [itemResult o item]) (fin ++ [itemResult o item]) be]
    simp [itemResult]

/-- Event trace of the loop from the same boundary: for each remaining
item, a progress event then its terminal result event, in order. -/
theorem runItems_events (o : BatchItem → ItemOracle) :
    ∀ (rest : List BatchItem) (done fin : List BatchResult) (be : Option String),
    (runItems o rest done.length
       { results := done ++ rest.map pendingResult, finalResults := fin, batchError := be }).events =
    (List.enumFrom done.length rest).flatMap
      (fun p => [BatchEvent.progress p.1 p.2.row, BatchEvent.result p.1 (itemResult o p.2)]) := by
  intro rest
  induction rest with
  | nil => intro done fin be; simp [runItems]
  | cons item rest ih =>
    intro done fin be
    simp only [runItems, List.map_cons, mapAt_append_cons]
    rw [show (processItem (o item) item).1 = itemResult o item from rfl]
    rw [show done ++ itemResult o item :: rest.map pendingResult
          = (done ++ [itemResult o item]) ++ rest.map pendingResult by simp,
        show done.length + 1 = (done ++ [itemResult o item]).length by simp]
    rw [ih (done ++ [itemResult o item]) (fin ++ [itemResult o item]) be]
    simp [List.enumFrom_cons]

/-- C1: for every non-empty ordered list of batch items, running the batch
produces exactly one terminal result per item, in input (row-ascending)
order; no item begins processing before the previous item has a terminal
result (its progress event follows the previous result event in the
trace); and the complete event carrying the full results list is the last
event, after all per-item results. -/
theorem batch_run_trace (o : BatchItem → ItemOracle) (items : List BatchItem)
    (prevResults : List BatchResult) (prevError : Option String) (h : items ≠ []) :
    (handleGenerate o items prevResults prevError).events =
      (List.enumFrom 0 items).flatMap
        (fun p => [BatchEvent.progress p.1 p.2.row, BatchEvent.result p.1 (itemResult o p.2)])
      ++ [BatchEvent.complete (items.map (itemResult o))] := by
  have hlen : ¬ items.length = 0 := by simpa [List.length_eq_zero] using h
  unfold handleGenerate
  rw [if_neg hlen]
  have he := runItems_events o items [] [] none
  have hf := runItems_final o items [] [] none
  simp only [List.nil_append, List.length_nil] at he hf
  simp [he, hf]

/-- Witness for C1 at a concrete two-item batch. -/
theorem batch_run_trace_witness :
    ([itEx, itEx2] : List BatchItem) ≠ [] ∧
    (handleGenerate (fun _ => oAllOk) [itEx, itEx2] [] none).events =
      (List.enumFrom 0 [itEx, itEx2]).flatMap
        (fun p => [BatchEvent.progress p.1 p.2.row,
                   BatchEvent.result p.1 (itemResult (fun _ => oAllOk) p.2)])
      ++ [BatchEvent.complete ([itEx, itEx2].map (itemResult (fun _ => oAllOk)))] :=
  ⟨by decide, batch_run_trace (fun _ => oAllOk) [itEx, itEx2] [] none (by decide)⟩

/-- Failure of the generate call yields exactly the error BatchResult the
catch block builds, carrying the row, topic and failure message. -/
theorem processItem_of_genFail (o : ItemOracle) (item : BatchItem)
    (hr : researchThrows o = false) (hg : genCallFails o = true) :
    (processItem o item).1 =
      { row := item.row, topic := item.topic, status := Status.error,
        error := some (genFailMsg o) } := by
  cases h : o.research with
  | throws m => simp [researchThrows, h] at hr
  | notOk =>
    cases hgo : o.gen none with
    | okBody b f => simp [genCallFails, genOutcomeOf, sentResearchData, h, hgo] at hg
    | throws m =>
      simp [processItem, h, finishGenerate, hgo, genFailMsg, genOutcomeOf, sentResearchData]
    | notOkWith e =>
      simp [processItem, h, finishGenerate, hgo, genFailMsg, genOutcomeOf, sentResearchData]
  | ok d =>
    cases hgo : o.gen (some d) with
    | okBody b f => simp [genCallFails, genOutcomeOf, sentResearchData, h, hgo] at hg
    | throws m =>
      simp [processItem, h, finishGenerate, hgo, genFailMsg, genOutcomeOf, sentResearchData]
    | notOkWith e =>
      simp [processItem, h, finishGenerate, hgo, genFailMsg, genOutcomeOf, sentResearchData]

/-- C2: when the generation call for item i fails, the batch appends a
BatchResult with status error carrying the failure message and the row and
topic of the item, does not retry (every item, including item i, yields
exactly the one result at its slot), does not abort the batch (the run
still produces one result for every item), and the page-level error state
stays null, so the adapter failure is never surfaced as a batch-level
failure. -/
theorem gen_failure_isolated (o : BatchItem → ItemOracle) (items : List BatchItem)
    (prevResults : List BatchResult) (prevError : Option String)
    (i : Nat) (h : i < items.length)
    (hr : researchThrows (o items[i]) = false)
    (hg : genCallFails (o items[i]) = true) :
    (handleGenerate o items prevResults prevError).final.finalResults.length = items.length ∧
    (handleGenerate o items prevResults prevError).final.finalResults[i]? =
      some { row := items[i].row, topic := items[i].topic,
             status := Status.error, error := some (genFailMsg (o items[i])) } ∧
    (∀ j, (hj : j < items.length) →
       (handleGenerate o items prevResults prevError).final.finalResults[j]? =
         some (itemResult o items[j])) ∧
    (handleGenerate o items prevResults prevError).final.batchError = none := by
  have hne : ¬ items.length = 0 := by omega
  unfold handleGenerate
  rw [if_neg hne]
  have hf := runItems_final o items [] [] none
  simp only [List.nil_append, List.length_nil] at hf
  simp only [hf, List.nil_append]
  refine ⟨by simp, ?_, ?_, by trivial⟩
  · rw [List.getElem?_map, List.getElem?_eq_getElem h]
    simp [itemResult, processItem_of_genFail (o items[i]) items[i] hr hg]
  · intro j hj
    rw [List.getElem?_map, List.getElem?_eq_getElem hj]
    rfl

/-- Witness for C2 at a one-item batch whose generate call returns a
non-ok response. -/
theorem gen_failure_isolated_witness :
    researchThrows oGenFails = false ∧ genCallFails oGenFails = true ∧
    (handleGenerate (fun _ => oGenFails) [itEx] [] none).final.finalResults[0]? =
      some { row := itEx.row, topic := itEx.topic, status := Status.error,
             error := some (genFailMsg oGenFails) } :=
  ⟨by decide, by decide,
    (gen_failure_isolated (fun _ => oGenFails) [itEx] [] none 0 (by decide)
      (by decide) (by decide)).2.1⟩

/-- C8: running the batch on an empty items list is a no-op: the guard
returns before any state is touched, so there are zero progress and zero
result events, the run terminates immediately with an empty results list,
and no archive is offered. -/
theorem empty_items_noop (o : BatchItem → ItemOracle) (prevError : Option String) :
    handleGenerate o [] [] prevError =
      { events := [], states := [],
        final := { results := [], finalResults := [], batchError := prevError } } ∧
    handleDownloadZip [] = none := by
  exact ⟨rfl, rfl⟩

/-- C9: in both the success and the error outcome, the result processItem
returns carries the row and the topic of the item it processed. -/
theorem result_preserves_row_topic (o : ItemOracle) (item : BatchItem) :
    (processItem o item).1.row = item.row ∧ (processItem o item).1.topic = item.topic := by
  cases h : o.research with
  | throws m => simp [processItem, h]
  | notOk => cases hg : o.gen none <;> simp [processItem, h, finishGenerate, hg]
  | ok d => cases hg : o.gen (some d) <;> simp [processItem, h, finishGenerate, hg]

/-- Inserting into the archive either leaves an existing entry list member
unchanged, or produces the entry with the inserted name and content. -/
theorem zipFile_mem (acc : List ZipEntry) (n c : String) :
    ∀ e ∈ zipFile acc n c, e ∈ acc ∨ (e.name = n ∧ e.contentBase64 = c) := by
  intro e he
  unfold zipFile at he
  by_cases hany : acc.any (fun x => x.name = n) = true
  · rw [if_pos hany] at he
    rcases List.mem_map.mp he with ⟨a, ha, rfl⟩
    by_cases hn : a.name = n
    · right
      rw [if_pos hn]
      exact ⟨hn, rfl⟩
    · left
      rw [if_neg hn]
      exact ha
  · rw [if_neg hany] at he
    rcases List.mem_append.mp he with h1 | h1
    · left; exact h1
    · right
      rcases List.mem_singleton.mp h1 with rfl
      exact ⟨rfl, rfl⟩

/-- One loop step of the assembler: an entry of the new accumulator is an
old entry or carries the filename and content of the processed result,
which then has both document fields truthy. -/
theorem zipStep_mem (acc : List ZipEntry) (r : BatchResult) :
    ∀ e ∈ zipStep acc r, e ∈ acc ∨
      (strTruthy r.documentBase64 = true ∧ strTruthy r.documentFilename = true ∧
       e.name = r.documentFilename.getD "" ∧ e.contentBase64 = r.documentBase64.getD "") := by
  intro e he
  unfold zipStep at he
  by_cases hg : (strTruthy r.documentBase64 && strTruthy r.documentFilename) = true
  · rw [if_pos hg] at he
    rcases zipFile_mem _ _ _ e he with h1 | ⟨h1, h2⟩
    · left; exact h1
    · right
      have hg2 : strTruthy r.documentBase64 = true ∧ strTruthy r.documentFilename = true := by
        simpa using hg
      exact ⟨hg2.1, hg2.2, h1, h2⟩
  · rw [if_neg hg] at he
    left; exact he

/-- Fold soundness: every entry of the built archive originates from some
processed result with both document fields truthy. -/
theorem foldl_zipStep_sound :
    ∀ (qs : List BatchResult) (acc : List ZipEntry), ∀ e ∈ qs.foldl zipStep acc,
      e ∈ acc ∨ ∃ r ∈ qs,
        strTruthy r.documentBase64 = true ∧ strTruthy r.documentFilename = true ∧
        e.name = r.documentFilename.getD "" ∧ e.contentBase64 = r.documentBase64.getD "" := by
  intro qs
  induction qs with
  | nil => intro acc e he; left; exact he
  | cons q qs ih =>
    intro acc e he
    rcases ih (zipStep acc q) e he with h1 | ⟨r, hr, h2⟩
    · rcases zipStep_mem acc q e h1 with h2 | h2
      · left; exact h2
      · right; exact ⟨q, List.mem_cons_self q qs, h2⟩
    · right; exact ⟨r, List.mem_cons_of_mem q hr, h2⟩

/-- Every archive entry comes from a successful result carrying both
document fields; failed results never contribute entries. -/
theorem zipEntriesOf_sound (rs : List BatchResult) :
    ∀ e ∈ zipEntriesOf rs, ∃ r ∈ rs, r.status = Status.success ∧
      strTruthy r.documentBase64 = true ∧ strTruthy r.documentFilename = true ∧
      e.name = r.documentFilename.getD "" ∧ e.contentBase64 = r.documentBase64.getD "" := by
  intro e he
  rcases foldl_zipStep_sound _ [] e he with h | ⟨r, hr, h1, h2, h3, h4⟩
  · simp at h
  · rcases List.mem_filter.mp hr with ⟨hrs, hsf⟩
    have hst : r.status = Status.success := by
      have := by simpa [successFilter] using hsf
      exact this.1
    exact ⟨r, hrs, hst, h1, h2, h3, h4⟩

/-- Name list of the archive after one insertion: unchanged when the name
was already present (its content is replaced in place), otherwise the name
is appended. -/
theorem zipFile_names (acc : List ZipEntry) (n c : String) :
    (zipFile acc n c).map ZipEntry.name =
      if acc.any (fun x => x.name = n) then acc.map ZipEntry.name
      else acc.map ZipEntry.name ++ [n] := by
  unfold zipFile
  by_cases hany : acc.any (fun x => x.name = n) = true
  · rw [if_pos hany, if_pos hany, List.map_map]
    apply List.map_congr_left
    intro a _
    by_cases hn : a.name = n
    · simp [hn]
    · simp [hn]
  · rw [if_neg hany, if_neg hany, List.map_append]
    rfl

/-- Names already in the archive survive any later insertion. -/
theorem zipFile_names_mono (acc : List ZipEntry) (n c m : String)
    (h : m ∈ acc.map ZipEntry.name) : m ∈ (zipFile acc n c).map ZipEntry.name := by
  rw [zipFile_names]
  by_cases hany : acc.any (fun x => x.name = n) = true
  · rw [if_pos hany]; exact h
  · rw [if_neg hany]; exact List.mem_append_left _ h

/-- The inserted name is present in the archive after insertion. -/
theorem zipFile_names_present (acc : List ZipEntry) (n c : String) :
    n ∈ (zipFile acc n c).map ZipEntry.name := by
  rw [zipFile_names]
  by_cases hany : acc.any (fun x => x.name = n) = true
  · rw [if_pos hany]
    rcases List.any_eq_true.mp hany with ⟨a, ha, hn⟩
    exact List.mem_map.mpr ⟨a, ha, of_decide_eq_true hn⟩
  · rw [if_neg hany]
    exact List.mem_append_right _ (List.mem_singleton.mpr rfl)

/-- Insertion keeps the entry names duplicate-free. -/
theorem zipFile_names_nodup (acc : List ZipEntry) (n c : String)
    (h : (acc.map ZipEntry.name).Nodup) : ((zipFile acc n c).map ZipEntry.name).Nodup := by
  rw [zipFile_names]
  by_cases hany : acc.any (fun x => x.name = n) = true
  · rw [if_pos hany]; exact h
  · rw [if_neg hany]
    rw [List.nodup_append]
    refine ⟨h, List.nodup_singleton n, ?_⟩
    intro m hm hmn
    rcases List.mem_singleton.mp hmn with rfl
    rcases List.mem_map.mp hm with ⟨a, ha, rfl⟩
    have := List.any_eq_true.not.mp hany
    exact this ⟨a, ha, decide_eq_true rfl⟩

/-- One loop step keeps old names and keeps the name list duplicate-free;
a result with both document fields truthy gets its filename into the
archive. -/
theorem zipStep_names (acc : List ZipEntry) (r : BatchResult) :
    (∀ m ∈ acc.map ZipEntry.name, m ∈ (zipStep acc r).map ZipEntry.name) ∧
    ((acc.map ZipEntry.name).Nodup → ((zipStep acc r).map ZipEntry.name).Nodup) ∧
    (strTruthy r.documentBase64 = true → strTruthy r.documentFilename = true →
      r.documentFilename.getD "" ∈ (zipStep acc r).map ZipEntry.name) := by
  unfold zipStep
  by_cases hg : (strTruthy r.documentBase64 && strTruthy r.documentFilename) = true
  · rw [if_pos hg]
    exact ⟨fun m hm => zipFile_names_mono acc _ _ m hm,
           zipFile_names_nodup acc _ _,
           fun _ _ => zipFile_names_present acc _ _⟩
  · rw [if_neg hg]
    refine ⟨fun m hm => hm, fun hn => hn, fun h1 h2 => absurd (by simp [h1, h2]) hg⟩

/-- Fold name lemmas: the built archive has duplicate-free names and
contains the filename of every processed result whose document fields are
both truthy. -/
theorem foldl_zipStep_names :
    ∀ (qs : List BatchResult) (acc : List ZipEntry),
      (∀ m ∈ acc.map ZipEntry.name, m ∈ (qs.foldl zipStep acc).map ZipEntry.name) ∧
      ((acc.map ZipEntry.name).Nodup → ((qs.foldl zipStep acc).map ZipEntry.name).Nodup) ∧
      (∀ r ∈ qs, strTruthy r.documentBase64 = true → strTruthy r.documentFilename = true →
        r.documentFilename.getD "" ∈ (qs.foldl zipStep acc).map ZipEntry.name) := by
  intro qs
  induction qs with
  | nil =>
    intro acc
    exact ⟨fun m hm => hm, fun h => h, fun r hr => absurd hr (List.not_mem_nil r)⟩
  | cons q qs ih =>
    intro acc
    refine ⟨?_, ?_, ?_⟩
    · intro m hm
      exact (ih (zipStep acc q)).1 m ((zipStep_names acc q).1 m hm)
    · intro hn
      exact (ih (zipStep acc q)).2.1 ((zipStep_names acc q).2.1 hn)
    · intro r hr h1 h2
      rcases List.mem_cons.mp hr with rfl | hr
      · exact (ih (zipStep acc r)).1 _ ((zipStep_names acc r).2.2 h1 h2)
      · exact (ih (zipStep acc q)).2.2 r hr h1 h2

/-- A result that is not kept by the loop guard (a missing or empty
document field) contributes no archive entry: the built entry list is the
same as if the result were absent. -/
theorem zipEntriesOf_skip (pre post : List BatchResult) (r0 : BatchResult)
    (h : strTruthy r0.documentBase64 = false ∨ strTruthy r0.documentFilename = false) :
    zipEntriesOf (pre ++ r0 :: post) = zipEntriesOf (pre ++ post) := by
  unfold zipEntriesOf
  rw [List.filter_append, List.filter_append, List.filter_cons]
  by_cases hs : successFilter r0 = true
  · have hb : strTruthy r0.documentBase64 = true := by
      have := by simpa [successFilter] using hs
      exact this.2
    have hf : strTruthy r0.documentFilename = false := by
      rcases h with h | h
      · rw [h] at hb; exact absurd hb (by simp)
      · exact h
    rw [if_pos hs, List.foldl_append, List.foldl_append, List.foldl_cons]
    rw [show zipStep (List.foldl zipStep [] (pre.filter successFilter)) r0
          = List.foldl zipStep [] (pre.filter successFilter) by simp [zipStep, hb, hf]]
  · rw [if_neg hs]

/-- A result whose documentBase64 is not truthy is dropped by the initial
filter, so it affects neither the emptiness check nor the archive:
handleDownloadZip behaves as if it were absent. -/
theorem handleDownloadZip_skip (pre post : List BatchResult) (r0 : BatchResult)
    (h : strTruthy r0.documentBase64 = false) :
    handleDownloadZip (pre ++ r0 :: post) = handleDownloadZip (pre ++ post) := by
  have hs : ¬ successFilter r0 = true := by simp [successFilter, h]
  unfold handleDownloadZip zipEntriesOf
  rw [List.filter_append, List.filter_cons, if_neg hs, ← List.filter_append]

/-- After inserting content under a name, the entry bearing that name
holds exactly that content: the insertion replaces, never keeps, an
earlier content under the same name. -/
theorem zipFile_at_name (acc : List ZipEntry) (n c : String) :
    ∀ e ∈ zipFile acc n c, e.name = n → e.contentBase64 = c := by
  intro e he hn
  unfold zipFile at he
  by_cases hany : acc.any (fun x => x.name = n) = true
  · rw [if_pos hany] at he
    rcases List.mem_map.mp he with ⟨a, ha, rfl⟩
    by_cases han : a.name = n
    · rw [if_pos han]
    · rw [if_neg han] at hn ⊢
      exact absurd hn han
  · rw [if_neg hany] at he
    rcases List.mem_append.mp he with h1 | h1
    · exact absurd (List.any_eq_true.mpr ⟨e, h1, decide_eq_true hn⟩) hany
    · rcases List.mem_singleton.mp h1 with rfl
      rfl

/-- Appending one result to the list updates the last-qualifying content
exactly when that result qualifies for the name. -/
theorem lastQualifyingContent_append (rs : List BatchResult) (r : BatchResult) (n : String) :
    lastQualifyingContent (rs ++ [r]) n =
      if qualifiesFor r n then some (r.documentBase64.getD "")
      else lastQualifyingContent rs n := by
  unfold lastQualifyingContent
  rw [List.foldl_append]
  rfl

/-- Appending one result to the results list extends the built entries by
one assembler step exactly when the result passes the success filter. -/
theorem zipEntriesOf_append_singleton (rs : List BatchResult) (r : BatchResult) :
    zipEntriesOf (rs ++ [r]) =
      if successFilter r = true then zipStep (zipEntriesOf rs) r else zipEntriesOf rs := by
  unfold zipEntriesOf
  rw [List.filter_append, List.foldl_append]
  cases h : successFilter r with
  | true => rw [if_pos rfl]; simp [List.filter_cons, h]
  | false => rw [if_neg (by simp)]; simp [List.filter_cons, h]

/-- Last insertion wins: every entry of the built archive carries the
content of the last result with status success, both document fields
truthy, and that entry name — so on a filename collision the later
content replaces the earlier one. -/
theorem zipEntriesOf_last_wins (rs : List BatchResult) :
    ∀ e ∈ zipEntriesOf rs, lastQualifyingContent rs e.name = some e.contentBase64 := by
  induction rs using List.reverseRecOn with
  | nil =>
    intro e he
    simp [zipEntriesOf] at he
  | append_singleton rs1 r ih =>
    intro e he
    rw [zipEntriesOf_append_singleton] at he
    rw [lastQualifyingContent_append]
    cases hsf : successFilter r with
    | false =>
      rw [hsf] at he
      rw [if_neg (by simp)] at he
      have hq : qualifiesFor r e.name = false := by
        have hsf2 : ((r.status == Status.success) && strTruthy r.documentBase64) = false := hsf
        cases ha : (r.status == Status.success) <;>
          cases hb : strTruthy r.documentBase64 <;>
            simp_all [qualifiesFor]
      rw [if_neg (by simp [hq])]
      exact ih e he
    | true =>
      rw [hsf, if_pos rfl] at he
      have hsf2 : r.status = Status.success ∧ strTruthy r.documentBase64 = true := by
        simpa [successFilter] using hsf
      unfold zipStep at he
      by_cases hg : (strTruthy r.documentBase64 && strTruthy r.documentFilename) = true
      · rw [if_pos hg] at he
        have hg2 : strTruthy r.documentBase64 = true ∧ strTruthy r.documentFilename = true := by
          simpa using hg
        by_cases hn : e.name = r.documentFilename.getD ""
        · have hc : e.contentBase64 = r.documentBase64.getD "" :=
            zipFile_at_name _ _ _ e he hn
          have hq : qualifiesFor r e.name = true := by
            simp [qualifiesFor, hsf2.1, hg2.1, hg2.2, hn]
          rw [if_pos hq, hc]
        · have he2 : e ∈ zipEntriesOf rs1 := by
            rcases zipFile_mem _ _ _ e he with h1 | ⟨h1, _⟩
            · exact h1
            · exact absurd h1 hn
          have hq : qualifiesFor r e.name = false := by
            have : (r.documentFilename.getD "" == e.name) = false :=
              beq_eq_false_iff_ne.mpr (fun hcon => hn hcon.symm)
            simp [qualifiesFor, this]
          rw [if_neg (by simp [hq])]
          exact ih e he2
      · rw [if_neg hg] at he
        have hfn : strTruthy r.documentFilename = false := by
          cases hfn : strTruthy r.documentFilename
          · rfl
          · exact absurd (by simp [hsf2.2, hfn]) hg
        have hq : qualifiesFor r e.name = false := by
          simp [qualifiesFor, hfn]
        rw [if_neg (by simp [hq])]
        exact ih e he

/-- C3 as stated is false: a results list whose only member reports
success but carries no document fields yields no archive, although a
result with status success exists, so neither the
one-entry-per-success-result archive branch nor the EmptyInput branch of
the claim holds. -/
theorem assemble_claim_counterexample :
    ¬ ((∃ entries zname, handleDownloadZip [rNoDoc] = some (entries, zname) ∧
          entries.length = (List.filter (fun r => r.status == Status.success) [rNoDoc]).length) ∨
       (handleDownloadZip [rNoDoc] = none ∧
          List.filter (fun r => r.status == Status.success) [rNoDoc] = [])) := by
  intro hcl
  rcases hcl with ⟨entries, zname, hsome, _⟩ | ⟨_, hfil⟩
  · rw [show handleDownloadZip [rNoDoc] = none from by decide] at hsome
    exact Option.noConfusion hsome
  · exact absurd hfil (by decide)

/-- C3 amended: assembly returns no archive exactly when no result passes
the success-and-documentBase64 filter, and otherwise returns the fixed
archive name together with an entry list whose names are duplicate-free,
in which every entry comes from a successful result carrying both
document fields (never from a failed result), every such result has an
entry under its filename (one entry per distinct filename), and each
entry holds the content of the last such result bearing its name — on a
filename collision the later content replaces the earlier. Byte-level
base64 decoding is outside this model, so the original never-partially-
fails sentence is not asserted. -/
theorem assemble_amended (rs : List BatchResult) :
    (handleDownloadZip rs = none ↔ rs.filter successFilter = []) ∧
    (∀ entries zname, handleDownloadZip rs = some (entries, zname) →
       zname = "content_briefs.zip" ∧
       (entries.map ZipEntry.name).Nodup ∧
       (∀ e ∈ entries, ∃ r ∈ rs, r.status = Status.success ∧
          strTruthy r.documentBase64 = true ∧ strTruthy r.documentFilename = true ∧
          e.name = r.documentFilename.getD "" ∧ e.contentBase64 = r.documentBase64.getD "") ∧
       (∀ e ∈ entries, lastQualifyingContent rs e.name = some e.contentBase64) ∧
       (∀ r ∈ rs, r.status = Status.success → strTruthy r.documentBase64 = true →
          strTruthy r.documentFilename = true →
          ∃ e ∈ entries, e.name = r.documentFilename.getD "")) := by
  constructor
  · unfold handleDownloadZip
    by_cases hl : (rs.filter successFilter).length = 0
    · rw [if_pos hl]
      simp [List.length_eq_zero.mp hl]
    · rw [if_neg hl]
      constructor
      · intro hsome; exact Option.noConfusion hsome
      · intro hfil; exact absurd (by rw [hfil]; rfl) hl
  · intro entries zname hsome
    unfold handleDownloadZip at hsome
    by_cases hl : (rs.filter successFilter).length = 0
    · rw [if_pos hl] at hsome; exact Option.noConfusion hsome
    · rw [if_neg hl] at hsome
      have hent : zipEntriesOf rs = entries := congrArg Prod.fst (Option.some.inj hsome)
      have hzn : zname = "content_briefs.zip" :=
        (congrArg Prod.snd (Option.some.inj hsome)).symm
      subst hent
      refine ⟨hzn, ?_, zipEntriesOf_sound rs, zipEntriesOf_last_wins rs, ?_⟩
      · exact (foldl_zipStep_names (rs.filter successFilter) []).2.1 (by simp)
      · intro r hr hst hb hf
        have hmem : r ∈ rs.filter successFilter :=
          List.mem_filter.mpr ⟨hr, by simp [successFilter, hst, hb]⟩
        have hn := (foldl_zipStep_names (rs.filter successFilter) []).2.2 r hmem hb hf
        rcases List.mem_map.mp hn with ⟨e, he, hename⟩
        exact ⟨e, he, hename⟩

/-- Witness for the amended C3 at the colliding pair: the single entry
provably carries the content of the later row, the last qualifying result
for that filename. -/
theorem assemble_amended_witness :
    handleDownloadZip [rColl1, rColl2] =
      some ([{ name := "brief.docx", contentBase64 := "Qg==" }], "content_briefs.zip") ∧
    lastQualifyingContent [rColl1, rColl2] "brief.docx" = some "Qg==" :=
  ⟨by decide,
    ((assemble_amended [rColl1, rColl2]).2
        [{ name := "brief.docx", contentBase64 := "Qg==" }] "content_briefs.zip"
        (by decide)).2.2.2.1
      { name := "brief.docx", contentBase64 := "Qg==" } (by decide)⟩

/-- C4: the code does not disambiguate filename collisions. Two
successful results sharing brief.docx produce an archive with a single
entry: the content of the later row silently replaces the earlier one, and no
row-suffixed entry exists, although the filtered success list has two
members. -/
theorem collision_overwrites :
    (List.filter successFilter [rColl1, rColl2]).length = 2 ∧
    rColl1.documentBase64 ≠ rColl2.documentBase64 ∧
    handleDownloadZip [rColl1, rColl2] =
      some ([{ name := "brief.docx", contentBase64 := "Qg==" }], "content_briefs.zip") := by
  decide

/-- C10: only results with status success and both document fields truthy
produce archive entries; a success result lacking documentBase64 or
documentFilename is silently omitted (the archive is as if it were
absent), and one lacking documentBase64 also does not count toward the
non-empty-archive check. -/
theorem success_without_document_omitted :
    (∀ rs : List BatchResult, ∀ e ∈ zipEntriesOf rs, ∃ r ∈ rs,
       r.status = Status.success ∧
       strTruthy r.documentBase64 = true ∧ strTruthy r.documentFilename = true ∧
       e.name = r.documentFilename.getD "" ∧ e.contentBase64 = r.documentBase64.getD "") ∧
    (∀ (pre post : List BatchResult) (r0 : BatchResult), r0.status = Status.success →
       strTruthy r0.documentBase64 = false ∨ strTruthy r0.documentFilename = false →
       zipEntriesOf (pre ++ r0 :: post) = zipEntriesOf (pre ++ post)) ∧
    (∀ (pre post : List BatchResult) (r0 : BatchResult), r0.status = Status.success →
       strTruthy r0.documentBase64 = false →
       handleDownloadZip (pre ++ r0 :: post) = handleDownloadZip (pre ++ post)) :=
  ⟨zipEntriesOf_sound,
   fun pre post r0 _ h => zipEntriesOf_skip pre post r0 h,
   fun pre post r0 _ h => handleDownloadZip_skip pre post r0 h⟩

/-- Witness for C10: dropping the undocumented success result from a list
changes nothing about the offered archive. -/
theorem success_without_document_omitted_witness :
    rNoDoc.status = Status.success ∧ strTruthy rNoDoc.documentBase64 = false ∧
    handleDownloadZip ([rOk] ++ rNoDoc :: []) = handleDownloadZip ([rOk] ++ []) :=
  ⟨by decide, by decide,
    success_without_document_omitted.2.2 [rOk] [] rNoDoc (by decide) (by decide)⟩

/-- The generate endpoint is always fetched after a research call that
resolved, whatever the generate outcome is. -/
theorem finishGenerate_trace (item : BatchItem) (g : GenOutcome) :
    (finishGenerate item g).2 = ["/api/research", "/api/generate"] := by
  cases g <;> rfl

/-- C5 as stated is false: with a research call that throws (a network
failure of the research step) while generation would succeed, the item
does not proceed to generation (the generate endpoint is never fetched)
and its final status is error rather than being determined by the
generation step. -/
theorem research_throw_counterexample :
    oResearchThrows.gen none = GenOutcome.okBody (some "QQ==") (some "f.docx") ∧
    (processItem oResearchThrows itEx).1.status = Status.error ∧
    "/api/generate" ∉ (processItem oResearchThrows itEx).2 := by
  decide

/-- C5 amended: a research call that returns an unsuccessful response is
not an item failure — the item proceeds to the generation call with
researchData = null and its result is exactly the result of the
generation path; but a research call that throws fails the item: the result status
is error and generation is never invoked. -/
theorem research_failure_best_effort (o : ItemOracle) (item : BatchItem) :
    (o.research = ResearchOutcome.notOk →
       (processItem o item).2 = ["/api/research", "/api/generate"] ∧
       (processItem o item).1 = (finishGenerate item (o.gen none)).1) ∧
    (∀ msg, o.research = ResearchOutcome.throws msg →
       (processItem o item).1.status = Status.error ∧
       (processItem o item).2 = ["/api/research"]) := by
  constructor
  · intro h
    simp only [processItem, h]
    exact ⟨finishGenerate_trace item (o.gen none), by trivial⟩
  · intro msg h
    simp [processItem, h]

/-- Witness for the amended C5 with a concrete non-ok research response. -/
theorem research_failure_best_effort_witness :
    oResearchNotOk.research = ResearchOutcome.notOk ∧
    (processItem oResearchNotOk itEx).2 = ["/api/research", "/api/generate"] :=
  ⟨rfl, ((research_failure_best_effort oResearchNotOk itEx).1 rfl).1⟩

/-- C6 as stated is false: a concrete item that passes generation never
has a validation endpoint among its fetched calls — the batch workflow
performs no validation step at all. -/
theorem no_validation_counterexample :
    (processItem oAllOk itEx).1.status = Status.success ∧
    "/api/validate" ∉ (processItem oAllOk itEx).2 := by
  decide

/-- C6 amended: the batch workflow never invokes a Validation Adapter (no
validation endpoint is ever fetched for any item), and the
success/failure status of an item is determined exactly by whether the research call
threw or the generation call failed — so, vacuously, no validation output
changes it. -/
theorem no_validation_in_batch (o : ItemOracle) (item : BatchItem) :
    "/api/validate" ∉ (processItem o item).2 ∧
    ((processItem o item).1.status = Status.error ↔
      (researchThrows o || genCallFails o) = true) := by
  cases h : o.research with
  | throws m => simp [processItem, h, researchThrows]
  | notOk =>
    cases hg : o.gen none <;>
      simp [processItem, h, finishGenerate, hg, researchThrows, genCallFails,
        genOutcomeOf, sentResearchData]
  | ok d =>
    cases hg : o.gen (some d) <;>
      simp [processItem, h, finishGenerate, hg, researchThrows, genCallFails,
        genOutcomeOf, sentResearchData]

/-- Every result processItem returns is terminal: success or error. -/
theorem itemResult_terminal (o : BatchItem → ItemOracle) (item : BatchItem) :
    isTerminal (itemResult o item).status = true := by
  unfold itemResult
  cases h : (o item).research with
  | throws m => simp [processItem, h, isTerminal]
  | notOk =>
    cases hg : (o item).gen none <;> simp [processItem, h, finishGenerate, hg, isTerminal]
  | ok d =>
    cases hg : (o item).gen (some d) <;> simp [processItem, h, finishGenerate, hg, isTerminal]

/-- Pending placeholders contribute no terminal entries. -/
theorem countTerminal_pending (items : List BatchItem) :
    countTerminal (items.map pendingResult) = 0 := by
  rw [countTerminal, List.countP_eq_zero]
  intro r hr
  rcases List.mem_map.mp hr with ⟨item, _, rfl⟩
  simp [pendingResult, isTerminal]

/-- Terminal count of a results list made of a prefix, one distinguished
slot, and all-pending placeholders after it. -/
theorem countTerminal_boundary (done : List BatchResult) (x : BatchResult)
    (rest : List BatchItem) :
    countTerminal (done ++ x :: rest.map pendingResult) =
      countTerminal done + (if isTerminal x.status = true then 1 else 0) := by
  have h0 := countTerminal_pending rest
  unfold countTerminal at h0 ⊢
  rw [List.countP_append, List.countP_cons, h0]
  simp

/-- Invariant of the loop trajectory: starting at the boundary between a
processed prefix whose terminal count matches the accumulated results and
all-pending remaining items, every intermediate state keeps the terminal
count equal to the accumulated results length, which never exceeds the
constant results-list length. -/
theorem runItems_states_inv (o : BatchItem → ItemOracle) :
    ∀ (rest : List BatchItem) (done fin : List BatchResult) (be : Option String),
    countTerminal done = fin.length →
    (∀ r ∈ done, isTerminal r.status = true) →
    ∀ s ∈ (runItems o rest done.length
        { results := done ++ rest.map pendingResult, finalResults := fin, batchError := be }).states,
      countTerminal s.results = s.finalResults.length ∧
      s.finalResults.length ≤ s.results.length ∧
      s.results.length = done.length + rest.length := by
  intro rest
  induction rest with
  | nil =>
    intro done fin be hc hdone s hs
    simp [runItems] at hs
  | cons item rest ih =>
    intro done fin be hc hdone s hs
    simp only [runItems, List.map_cons, mapAt_append_cons] at hs
    rw [show (processItem (o item) item).1 = itemResult o item from rfl] at hs
    have hcd : countTerminal done ≤ done.length := List.countP_le_length _
    have hfd : fin.length ≤ done.length := by omega
    rcases List.mem_cons.mp hs with rfl | hs
    · refine ⟨?_, ?_, ?_⟩
      · rw [countTerminal_boundary]
        simp [isTerminal, hc]
      · simp
        omega
      · simp
    · rcases List.mem_cons.mp hs with rfl | hs
      · refine ⟨?_, ?_, ?_⟩
        · rw [countTerminal_boundary]
          simp [itemResult_terminal o item, hc]
        · simp
          omega
        · simp
      · rw [show done ++ itemResult o item :: rest.map pendingResult
              = (done ++ [itemResult o item]) ++ rest.map pendingResult by simp,
            show done.length + 1 = (done ++ [itemResult o item]).length by simp] at hs
        have hc2 : countTerminal (done ++ [itemResult o item])
            = (fin ++ [itemResult o item]).length := by
          have ht := itemResult_terminal o item
          unfold countTerminal at hc ⊢
          rw [List.countP_append]
          simp [List.countP_cons, ht, hc]
        have hd2 : ∀ r ∈ done ++ [itemResult o item], isTerminal r.status = true := by
          intro r hr
          rcases List.mem_append.mp hr with hr | hr
          · exact hdone r hr
          · rcases List.mem_singleton.mp hr with rfl
            exact itemResult_terminal o item
        have := ih (done ++ [itemResult o item]) (fin ++ [itemResult o item]) be hc2 hd2 s hs
        refine ⟨this.1, this.2.1, ?_⟩
        rw [this.2.2]
        simp
        omega

/-- C7: at every observable point of a batch run (the state after every
setResults update), the number of items in a terminal state equals the
length of the accumulated results list, and that accumulated list never
has more entries than the input items list. -/
theorem terminal_count_invariant (o : BatchItem → ItemOracle) (items : List BatchItem)
    (prevResults : List BatchResult) (prevError : Option String) :
    ∀ s ∈ (handleGenerate o items prevResults prevError).states,
      countTerminal s.results = s.finalResults.length ∧
      s.finalResults.length ≤ items.length := by
  intro s hs
  unfold handleGenerate at hs
  by_cases h : items.length = 0
  · rw [if_pos h] at hs
    simp at hs
  · rw [if_neg h] at hs
    obtain ⟨h1, h2, h3⟩ := runItems_states_inv o items [] [] none rfl
      (fun r hr => absurd hr (List.not_mem_nil r)) s (by simpa using hs)
    simp only [List.length_nil, Nat.zero_add] at h3
    exact ⟨h1, by omega⟩

/-- Witness for C7 at the first intermediate state of a one-item run. -/
theorem terminal_count_invariant_witness :
    stEx ∈ (handleGenerate (fun _ => oAllOk) [itEx] [] none).states ∧
    countTerminal stEx.results = stEx.finalResults.length ∧
    stEx.finalResults.length ≤ [itEx].length := by
  refine ⟨by decide, ?_⟩
  exact terminal_count_invariant (fun _ => oAllOk) [itEx] [] none stEx (by decide)

/-- Witness applying the amended C6 theorem at a concrete oracle. -/
theorem no_validation_in_batch_witness :
    "/api/validate" ∉ (processItem oGenFails itEx).2 ∧
    ((processItem oGenFails itEx).1.status = Status.error ↔
      (researchThrows oGenFails || genCallFails oGenFails) = true) :=
  no_validation_in_batch oGenFails itEx
